import Mathlib

namespace KakSpec

/-!
Verification of the selection engine and modal command-dispatch layer of the
Kakoune editor core (`src/normal.cc`, `src/word_db.hh` and companions).

The development shallowly embeds the data model (coordinates, selections,
selection lists, insert modes, registers) and the command handlers the claims
are about, and proves the claimed properties about the embedding.
Implementations that live outside the provided slice (`SelectionList`
internals such as `sort_and_merge_overlapping`) are modelled from the
specification text, as marked in their doc comments.
-/

/-! ### Byte coordinates

`ByteCoord` is a (line, byte-column) pair, ordered lexicographically. -/

abbrev ByteCoord := Nat × Nat

/-- Lexicographic less-or-equal on byte coordinates, as a boolean. -/
def cleB (a b : ByteCoord) : Bool :=
  a.1 < b.1 || (a.1 == b.1 && a.2 ≤ b.2)

/-- Lexicographic less-or-equal on byte coordinates, as a proposition. -/
def cle (a b : ByteCoord) : Prop := cleB a b = true

instance (a b : ByteCoord) : Decidable (cle a b) := by
  unfold cle; infer_instance

/-- The smaller of two coordinates under the lexicographic order. -/
def cmin (a b : ByteCoord) : ByteCoord := if cle a b then a else b

/-- The larger of two coordinates under the lexicographic order. -/
def cmax (a b : ByteCoord) : ByteCoord := if cle a b then b else a

/-! ### Selections

From `src/normal.cc` and the spec data model (§3): a selection is an
anchor/cursor pair of coordinates plus captured sub-match strings;
`min()`/`max()` give the ordered endpoints regardless of direction. -/

structure Selection where
  anchor : ByteCoord
  cursor : ByteCoord
  captures : List String := []
  deriving Repr, DecidableEq

/-- Source `Selection::min()`: the smaller endpoint of the anchor/cursor pair. -/
def Selection.smin (s : Selection) : ByteCoord := cmin s.anchor s.cursor

/-- Source `Selection::max()`: the larger endpoint of the anchor/cursor pair. -/
def Selection.smax (s : Selection) : ByteCoord := cmax s.anchor s.cursor

/-- Two selections (as inclusive coordinate ranges) overlap. -/
def overlapping (a b : Selection) : Prop :=
  cle b.smin a.smax ∧ cle a.smin b.smax

/-- Ascending ordering of selections by their `min()` endpoint. -/
def minLe (a b : Selection) : Prop := cle a.smin b.smin

instance : DecidableRel minLe := fun a b => by
  unfold minLe; infer_instance

/-- Strict separation: `a` ends strictly before `b` begins (so they can
neither overlap nor touch out of order). -/
def sep (a b : Selection) : Prop := ¬ cle b.smin a.smax

/-- Modelled from the spec: merging two overlapping selections "keeps the
union of anchor/cursor range with cursor-direction preserved, concatenates
captures" (§3 invariant 3).  The implementation of the merge lives in
`selection.cc`, outside the provided source slice. -/
def Selection.merge_sel (a b : Selection) : Selection :=
  let lo := cmin a.smin b.smin
  let hi := cmax a.smax b.smax
  if cle a.anchor a.cursor then ⟨lo, hi, a.captures ++ b.captures⟩
  else ⟨hi, lo, a.captures ++ b.captures⟩

/-! ### SelectionList: sorting and merging -/

/-- A `SelectionList`: ordered selections plus the index of the main one. -/
structure SelectionList where
  selections : List Selection
  main_index : Nat
  deriving Repr, DecidableEq

/-- One left-to-right merging pass over a min-sorted list of selections:
successive selections whose ranges overlap are merged. -/
def mergeAdj : Selection → List Selection → List Selection
  | cur, [] => [cur]
  | cur, s :: rest =>
    if cle s.smin cur.smax then mergeAdj (cur.merge_sel s) rest
    else cur :: mergeAdj s rest

/-- Modelled from the spec: `SelectionList::sort_and_merge_overlapping()`
(declared in `selection.hh`, implemented in `selection.cc`, outside the
provided slice) sorts the selections ascending by `min()` and merges
overlapping ones, keeping `main_index` a valid index (§3 invariants 2-4,
§4.1). -/
def sort_and_merge_overlapping (sl : SelectionList) : SelectionList :=
  match List.insertionSort minLe sl.selections with
  | [] => sl
  | c :: rest =>
    let merged := mergeAdj c rest
    { selections := merged, main_index := Nat.min sl.main_index (merged.length - 1) }

/-- Modelled from the spec: `SelectionList::check_invariant()` (outside the
provided slice) validates the §3 invariants: non-empty, ascending by `min()`,
pairwise non-overlapping, `main_index` in range. -/
def check_invariant (sl : SelectionList) : Prop :=
  sl.selections ≠ [] ∧
  sl.main_index < sl.selections.length ∧
  List.Pairwise minLe sl.selections ∧
  List.Pairwise (fun a b => ¬ overlapping a b) sl.selections

instance (a b : Selection) : Decidable (overlapping a b) := by
  unfold overlapping; infer_instance

instance (sl : SelectionList) : Decidable (check_invariant sl) := by
  unfold check_invariant; infer_instance

/-! ### The transformation protocol (`select` envelope, `src/normal.cc:27-66`) -/

inductive SelectMode
  | Replace
  | Extend
  | Append
  deriving Repr, DecidableEq

/-- Source `SelectionList::main()`: the selection at `main_index`. -/
def SelectionList.main (sl : SelectionList) : Selection :=
  sl.selections.getD sl.main_index ⟨(0, 0), (0, 0), []⟩

/-- Modelled from the spec: `Selection::merge_with` (in `selection.cc`,
outside the provided slice): Extend keeps the anchor side nearer the
original anchor and moves the cursor to the result's cursor (§4.2). -/
def Selection.merge_with (sel res : Selection) : Selection :=
  { sel with cursor := res.cursor }

/-- The per-mode body of `select` (`src/normal.cc:39-63`): Append runs the
function on the main selection only and pushes the result as the new trailing
main selection; Replace/Extend run it on every selection, adopting the
result's captures only when non-empty. -/
def apply_mode {β : Type} (mode : SelectMode) (func : β → Selection → Selection)
    (buffer : β) (sl : SelectionList) : SelectionList :=
  match mode with
  | .Append =>
    let sel := sl.main
    let res := func buffer sel
    let res := if res.captures.isEmpty then { res with captures := sel.captures }
               else res
    { selections := sl.selections ++ [res], main_index := sl.selections.length }
  | .Extend =>
    { sl with selections := sl.selections.map (fun sel =>
        let res := func buffer sel
        let sel' := sel.merge_with res
        if res.captures.isEmpty then sel' else { sel' with captures := res.captures }) }
  | .Replace =>
    { sl with selections := sl.selections.map (fun sel =>
        let res := func buffer sel
        let sel' := { sel with anchor := res.anchor, cursor := res.cursor }
        if res.captures.isEmpty then sel' else { sel' with captures := res.captures }) }

/-- The `select` envelope (`src/normal.cc:34-66`): apply the per-selection
function according to the mode, then run `sort_and_merge_overlapping` (and
validate the invariants, established by `sort_and_merge_valid`). -/
def select {β : Type} (mode : SelectMode) (func : β → Selection → Selection)
    (buffer : β) (sl : SelectionList) : SelectionList :=
  sort_and_merge_overlapping (apply_mode mode func buffer sl)

/-! ### Insertion & paste adaptation (`src/normal.cc:501-526`) -/

/-- Modelled from the spec and from usage in `src/normal.cc`: the insertion
mode enumeration (declared outside the provided slice); constructors are the
ones `normal.cc` names. -/
inductive InsertMode
  | Insert
  | Append
  | Replace
  | InsertAtLineBegin
  | InsertAtNextLineBegin
  | AppendAtLineEnd
  | OpenLineBelow
  | OpenLineAbove
  deriving Repr, DecidableEq

/-- Source `adapt_for_linewise` (`src/normal.cc:501-509`). -/
def adapt_for_linewise (mode : InsertMode) : InsertMode :=
  if mode = InsertMode.Append then InsertMode.InsertAtNextLineBegin
  else if mode = InsertMode.Insert then InsertMode.InsertAtLineBegin
  else if mode = InsertMode.Replace then InsertMode.Replace
  else InsertMode.Insert

/-- The test `not str.empty() and str.back() == '\n'` on a register value
(modelled as a list of characters). -/
def ends_with_nl (str : List Char) : Bool :=
  !str.isEmpty && str.getLast? == some '\n'

/-- The effective-mode computation of `paste` (`src/normal.cc:511-526`):
scan the register values, and at the first one ending in a line terminator
switch to the linewise-adapted mode (the loop breaks there). -/
def paste_effective_mode (mode : InsertMode) (strings : List (List Char)) :
    InsertMode :=
  match strings with
  | [] => mode
  | str :: rest =>
    if ends_with_nl str then adapt_for_linewise mode
    else paste_effective_mode mode rest

/-! ### Prompt events and the keep / keep_pipe filters
(`src/normal.cc:762-805`) -/

inductive PromptEvent
  | Change
  | Validate
  | Abort
  deriving Repr, DecidableEq

/-- The body of the `keep` prompt callback (`src/normal.cc:766-780`), over an
abstract selection type: an empty regex returns without touching the
selections; otherwise the selections whose content search result equals
`matching` are kept, a dedicated error being raised when none remain.
`rmatch` abstracts `regex_search` over the selection's content. -/
def keep_on_regex {σ : Type} (rmatch : String → σ → Bool) (matching : Bool)
    (ex : String) (sels : List σ) : Except String (List σ) :=
  if ex.isEmpty then Except.ok sels
  else
    let kept := sels.filter (fun sel => rmatch ex sel == matching)
    if kept.isEmpty then Except.error "no selections remaining"
    else Except.ok kept

/-- The body of the `keep_pipe` prompt callback (`src/normal.cc:787-804`):
only a Validate event acts; selections whose piped command exits with status
0 are kept, a dedicated error being raised when none remain. -/
def keep_pipe_on_event {σ : Type} (status : σ → Int) (event : PromptEvent)
    (sels : List σ) : Except String (List σ) :=
  if event ≠ PromptEvent.Validate then Except.ok sels
  else
    let kept := sels.filter (fun sel => status sel == 0)
    if kept.isEmpty then Except.error "no selections remaining"
    else Except.ok kept

/-! ### Register fallback in the interactive regex operations
(`src/normal.cc:621-702`).  Each callback is modelled at the pattern level:
it receives the current "/" register content and the submitted pattern, and
returns the new "/" register content together with the pattern actually
applied to the selections (`none` when no selection change is applied). -/

/-- The `search` prompt callback (`src/normal.cc:624-632`). -/
def search_callback (regSlash ex : String) (event : PromptEvent) :
    String × Option String :=
  if ex.isEmpty then
    let ex2 := regSlash
    (regSlash, if ex2.isEmpty then none else some ex2)
  else
    ((if event = PromptEvent.Validate then ex else regSlash), some ex)

/-- The `select_regex` prompt callback (`src/normal.cc:682-689`); its
register handling is identical to `search`, only the applied operation
(`select_all_matches`) differs. -/
def select_regex_callback (regSlash ex : String) (event : PromptEvent) :
    String × Option String :=
  if ex.isEmpty then
    let ex2 := regSlash
    (regSlash, if ex2.isEmpty then none else some ex2)
  else
    ((if event = PromptEvent.Validate then ex else regSlash), some ex)

/-- The `split_regex` prompt callback (`src/normal.cc:694-701`); its
register handling is identical to `search`, only the applied operation
(`split_selections`) differs. -/
def split_regex_callback (regSlash ex : String) (event : PromptEvent) :
    String × Option String :=
  if ex.isEmpty then
    let ex2 := regSlash
    (regSlash, if ex2.isEmpty then none else some ex2)
  else
    ((if event = PromptEvent.Validate then ex else regSlash), some ex)

/-- What C9 claims for `keep`: an empty submitted pattern falls back to the
"/" register before filtering.  This definition follows the claim's words,
for comparison against `keep_on_regex`, which embeds the source. -/
def keep_claimed_fallback {σ : Type} (rmatch : String → σ → Bool)
    (matching : Bool) (regSlash ex : String) (sels : List σ) :
    Except String (List σ) :=
  keep_on_regex rmatch matching (if ex.isEmpty then regSlash else ex) sels

/-! ### The regex prompt wrapper (`src/normal.cc:564-619`)

The prompt callback is modelled as a step function over an abstract
selection-list type: the captured snapshot is updated and written back to the
context at the start of every event, the pattern is compiled, the wrapped
`func` runs, and the three catch clauses dispatch on the kind of error.  The
result records the context selections afterwards, the exception propagated to
the caller (if any), whether the prompt face was set to the error face (the
non-fatal hint), and the selections `func` was evaluated on (if it ran). -/

/-- The exception kinds distinguished by the catch clauses of
`regex_prompt`: `RegexError`, `std::runtime_error`, and Kakoune's own
`runtime_error`. -/
inductive FuncErr
  | regexErr (msg : String)
  | stdErr (msg : String)
  | kakErr (msg : String)

/-- Result of one prompt callback invocation. -/
structure PromptStep (σ : Type) where
  sels : σ
  thrown : Option String
  faceError : Bool
  funcInput : Option σ

/-- The callback body from the `Regex` construction on
(`src/normal.cc:585-617`): compile the pattern (an empty string yields the
empty regex without compiling), run `func`, and dispatch errors through the
three catch clauses: a `RegexError` or `std::runtime_error` is rethrown as a
hard "regex error" only on Validate and otherwise surfaces as the error
prompt face (a non-fatal hint); Kakoune's `runtime_error` restores the
snapshot and is rethrown only on Validate. -/
def regex_prompt_run {σ : Type} (compile : String → Option String)
    (func : String → PromptEvent → σ → Except (FuncErr × σ) σ)
    (str : String) (event : PromptEvent) (snap : σ) : PromptStep σ :=
  match (if str.isEmpty then none else compile str) with
  | some _ =>
    if event = PromptEvent.Validate then ⟨snap, some "regex error", false, none⟩
    else ⟨snap, none, true, none⟩
  | none =>
    match func str event snap with
    | Except.ok sels2 => ⟨sels2, none, false, some snap⟩
    | Except.error (FuncErr.regexErr m, sels2) =>
      if event = PromptEvent.Validate then
        ⟨sels2, some ("regex error: " ++ m), false, some snap⟩
      else ⟨sels2, none, true, some snap⟩
    | Except.error (FuncErr.stdErr m, sels2) =>
      if event = PromptEvent.Validate then
        ⟨sels2, some ("regex error: " ++ m), false, some snap⟩
      else ⟨sels2, none, true, some snap⟩
    | Except.error (FuncErr.kakErr m, _) =>
      if event = PromptEvent.Validate then ⟨snap, some m, false, some snap⟩
      else ⟨snap, none, false, some snap⟩

/-- One invocation of the `regex_prompt` callback (`src/normal.cc:569-618`).
The captured snapshot is `update()`d and written back to the context first;
Abort returns right after, as does a Change event with an empty pattern or
incremental search disabled; otherwise the body `regex_prompt_run` runs.
Returns the step result together with the new captured snapshot (the lambda
captures the snapshot mutably). -/
def regex_prompt_step {σ : Type} (incsearch : Bool)
    (compile : String → Option String)
    (func : String → PromptEvent → σ → Except (FuncErr × σ) σ)
    (upd : σ → σ) (snapshot : σ) (str : String) (event : PromptEvent) :
    PromptStep σ × σ :=
  let snap := upd snapshot
  if event = PromptEvent.Abort then
    (⟨snap, none, false, none⟩, snap)
  else if event = PromptEvent.Change ∧ (str.isEmpty = true ∨ incsearch = false) then
    (⟨snap, none, false, none⟩, snap)
  else
    (regex_prompt_run compile func str event snap, snap)

/-- A whole prompt interaction: fold `regex_prompt_step` over a list of
events, each carrying the buffer-edit forwarding function applied by
`SelectionList::update()`, the prompt text and the event kind.  Returns the
final captured snapshot, the final context selections and the per-event
selections `func` was evaluated on. -/
def regex_prompt_session {σ : Type} (incsearch : Bool)
    (compile : String → Option String)
    (func : String → PromptEvent → σ → Except (FuncErr × σ) σ)
    (snapshot : σ) (ctx : σ)
    (events : List ((σ → σ) × String × PromptEvent)) :
    σ × σ × List (Option σ) :=
  match events with
  | [] => (snapshot, ctx, [])
  | (upd, str, ev) :: rest =>
    let out := regex_prompt_step incsearch compile func upd snapshot str ev
    let next := regex_prompt_session incsearch compile func out.2 out.1.sels rest
    (next.1, next.2.1, out.1.funcInput :: next.2.2)

/-! ### Macro replay with recursion guard (`src/normal.cc:1066-1090`)

A macro body is modelled as the sequence of steps its key stream performs:
plain editing actions (which may fail) and invocations of other macros
(`exec_keys` dispatching a nested `replay_macro`).  The 26 per-name guard
flags of `running_macros` are threaded as explicit state; each replay frame
sets its own flag and clears it through the scope guard on every exit path. -/

inductive MacroItem
  | act (ok : Bool)
  | call (n : Fin 26)

/-- The per-name contents of the macro registers: for each name, the steps
its recorded key sequence performs. -/
def MacroDefs := Fin 26 → List MacroItem

/-- The `running_macros` flag array. -/
def MacroFlags := Fin 26 → Bool

def MacroFlags.set (flags : MacroFlags) (n : Fin 26) (v : Bool) : MacroFlags :=
  fun i => if i = n then v else flags i

/-- Execute the steps of a macro body in order, stopping at the first
failure (an exception propagating out of `exec_keys`); `step` replays a
nested macro invocation. -/
def run_macro_body (step : MacroFlags → Fin 26 → Except String Unit × MacroFlags)
    (flags : MacroFlags) :
    List MacroItem → Except String Unit × MacroFlags
  | [] => (Except.ok (), flags)
  | MacroItem.act ok :: rest =>
    if ok then run_macro_body step flags rest
    else (Except.error "action failed", flags)
  | MacroItem.call n :: rest =>
    match step flags n with
    | (Except.ok _, flags2) => run_macro_body step flags2 rest
    | (Except.error e, flags2) => (Except.error e, flags2)

/-- Source `replay_macro` (`src/normal.cc:1070-1088`): if the guard flag for the
name is set, throw "recursive macros call detected"; if the register is
empty, do nothing; otherwise set the flag, execute the recorded steps, and
clear the flag on every exit path (the `on_scope_end` guard).  `fuel` bounds
the nesting depth so that the interpreter is total. -/
def replay_macro (defs : MacroDefs) : Nat → MacroFlags → Fin 26 →
    Except String Unit × MacroFlags
  | 0, flags, _ => (Except.error "fuel exhausted", flags)
  | fuel + 1, flags, name =>
    if flags name then (Except.error "recursive macros call detected", flags)
    else if (defs name).isEmpty then (Except.ok (), flags)
    else
      let out := run_macro_body ( replay_macro defs fuel)
                   (flags.set name true) (defs name)
      (out.1, out.2.set name false)

/-- A macro register layout with a transitive recursion: macro `a` invokes
`b` and `b` invokes `a` back. -/
def macro_defs_rec : MacroDefs := fun n =>
  if n = (0 : Fin 26) then [MacroItem.call (1 : Fin 26)]
  else if n = (1 : Fin 26) then [MacroItem.call (0 : Fin 26)]
  else []

/-- The same register after re-recording macro `a` with a plain action. -/
def macro_defs_fixed : MacroDefs := fun n =>
  if n = (0 : Fin 26) then [MacroItem.act true] else []

/-- No macro currently replaying. -/
def macro_flags_clear : MacroFlags := fun _ => false

/-! ### Undo / redo range mapping (`src/normal.cc:1260-1292`)

The buffer is abstract: `undo_op`/`redo_op` return whether a change was
available plus the new buffer, `timestamp` is its modification counter,
`compute_modified_ranges` and `avoid_eol` are the collaborators the handler
calls (implemented outside the provided slice). -/

/-- Source `undo` (`src/normal.cc:1260-1274`): returns the new buffer, the new
selection set and the status message printed, if any. -/
def undo_cmd {β σ : Type} (undo_op : β → Bool × β) (timestamp : β → Nat)
    (compute_modified_ranges : β → Nat → List σ) (avoid_eol : List σ → List σ)
    (buffer : β) (sels : List σ) : β × List σ × Option String :=
  let ts := timestamp buffer
  let res := undo_op buffer
  if res.1 then
    let ranges := compute_modified_ranges res.2 ts
    let sels1 := if ranges.isEmpty then sels else ranges
    (res.2, avoid_eol sels1, none)
  else (res.2, sels, some "nothing left to undo")

/-- Source `redo` (`src/normal.cc:1276-1292`). -/
def redo_cmd {β σ : Type} (redo_op : β → Bool × β) (timestamp : β → Nat)
    (compute_modified_ranges : β → Nat → List σ) (avoid_eol : List σ → List σ)
    (buffer : β) (sels : List σ) : β × List σ × Option String :=
  let ts := timestamp buffer
  let res := redo_op buffer
  if res.1 then
    let ranges := compute_modified_ranges res.2 ts
    let sels1 := if ranges.isEmpty then sels else ranges
    (res.2, avoid_eol sels1, none)
  else (res.2, sels, some "nothing left to redo")

/-! ### Word database bitset pre-filter (`src/word_db.hh:14-39`) -/

/-- Source `WordDB::find_matching` (`src/word_db.hh:26-39`): for each stored word
(paired with the `UsedLetters` bitmask computed at insertion), keep it when
the query's bitmask is a bitwise subset of the word's and the caller's match
predicate accepts it.  `ul` abstracts `used_letters` (implemented in
`word_db.cc`, outside the provided slice); the 64-bit bitset is a natural
number bitmask. -/
def find_matching (ul : String → Nat) (words : List (String × Nat))
    (mtch : String → String → Bool) (str : String) : List String :=
  (words.filter
    (fun w => (Nat.land (ul str) w.2 == ul str) && mtch w.1 str)).map
    (fun w => w.1)

/-! ### search_next (`src/normal.cc:635-655`) -/

/-- Source `search_next` (`src/normal.cc:635-655`): with an empty "/" register the
command throws "no search pattern"; with a register pattern that fails to
compile it throws a "regex error"; otherwise `select_next_match` runs once
and repeats while the decremented count stays positive (so `max count 1`
times in total).  Returns the selections afterwards and the error raised,
if any — on an error the selections are the ones passed in, untouched. -/
def search_next {σ : Type} (regSlash : String)
    (compile : String → Option String) (apply_match : σ → σ)
    (count : Nat) (sels : σ) : σ × Option String :=
  if regSlash.isEmpty then (sels, some "no search pattern")
  else
    match compile regSlash with
    | some err => (sels, some ("regex error: " ++ err))
    | none => (Nat.iterate apply_match (max count 1) sels, none)

/-! ### Theorems -/

theorem cle_iff {a b : ByteCoord} :
    cle a b ↔ a.1 < b.1 ∨ (a.1 = b.1 ∧ a.2 ≤ b.2) := by
  simp [cle, cleB, Bool.or_eq_true, Bool.and_eq_true, decide_eq_true_eq]

theorem cle_refl (a : ByteCoord) : cle a a := by
  rw [cle_iff]; right; exact ⟨rfl, le_refl _⟩

theorem cle_trans {a b c : ByteCoord} (h1 : cle a b) (h2 : cle b c) : cle a c := by
  rw [cle_iff] at h1 h2 ⊢
  rcases h1 with h1 | ⟨h1, h1'⟩ <;> rcases h2 with h2 | ⟨h2, h2'⟩
  · exact Or.inl (h1.trans h2)
  · exact Or.inl (h2 ▸ h1)
  · exact Or.inl (h1 ▸ h2)
  · exact Or.inr ⟨h1.trans h2, h1'.trans h2'⟩

theorem cle_total (a b : ByteCoord) : cle a b ∨ cle b a := by
  rw [cle_iff, cle_iff]
  rcases Nat.lt_trichotomy a.1 b.1 with h | h | h
  · exact Or.inl (Or.inl h)
  · rcases Nat.le_total a.2 b.2 with h' | h'
    · exact Or.inl (Or.inr ⟨h, h'⟩)
    · exact Or.inr (Or.inr ⟨h.symm, h'⟩)
  · exact Or.inr (Or.inl h)

theorem cle_antisymm {a b : ByteCoord} (h1 : cle a b) (h2 : cle b a) : a = b := by
  rw [cle_iff] at h1 h2
  rcases h1 with h1 | ⟨h1, h1'⟩ <;> rcases h2 with h2 | ⟨h2, h2'⟩
  · exact absurd (h1.trans h2) (lt_irrefl _)
  · exact absurd h1 (h2 ▸ lt_irrefl _)
  · exact absurd h2 (h1 ▸ lt_irrefl _)
  · exact Prod.ext h1 (le_antisymm h1' h2')

theorem cle_of_not_cle {a b : ByteCoord} (h : ¬ cle a b) : cle b a :=
  (cle_total a b).resolve_left h

theorem cmin_le_left (a b : ByteCoord) : cle (cmin a b) a := by
  unfold cmin; split
  · exact cle_refl a
  · exact cle_of_not_cle (by assumption)

theorem cmin_le_right (a b : ByteCoord) : cle (cmin a b) b := by
  unfold cmin; split
  · assumption
  · exact cle_refl b

theorem le_cmax_left (a b : ByteCoord) : cle a (cmax a b) := by
  unfold cmax; split
  · assumption
  · exact cle_refl a

theorem le_cmax_right (a b : ByteCoord) : cle b (cmax a b) := by
  unfold cmax; split
  · exact cle_refl b
  · exact cle_of_not_cle (by assumption)

theorem cmin_eq_left {a b : ByteCoord} (h : cle a b) : cmin a b = a := by
  unfold cmin; rw [if_pos h]

theorem cmin_eq_left' {a b : ByteCoord} (h : cle a b) : cmin b a = a := by
  unfold cmin; split
  · exact cle_antisymm (by assumption) h
  · rfl

theorem cmax_eq_right {a b : ByteCoord} (h : cle a b) : cmax a b = b := by
  unfold cmax; rw [if_pos h]

theorem cmax_eq_right' {a b : ByteCoord} (h : cle a b) : cmax b a = b := by
  unfold cmax; split
  · exact cle_antisymm h (by assumption)
  · rfl

theorem smin_le_smax (s : Selection) : cle s.smin s.smax := by
  unfold Selection.smin Selection.smax cmin cmax
  split
  · assumption
  · exact cle_of_not_cle (by assumption)

theorem sep_not_overlapping {a b : Selection} (h : sep a b) : ¬ overlapping a b :=
  fun ho => h ho.1

theorem merge_sel_smin (a b : Selection) :
    (a.merge_sel b).smin = cmin a.smin b.smin := by
  have hlohi : cle (cmin a.smin b.smin) (cmax a.smax b.smax) :=
    cle_trans (cmin_le_left _ _) (cle_trans (smin_le_smax a) (le_cmax_left _ _))
  unfold Selection.merge_sel
  split
  · show cmin (cmin a.smin b.smin) (cmax a.smax b.smax) = _
    exact cmin_eq_left hlohi
  · show cmin (cmax a.smax b.smax) (cmin a.smin b.smin) = _
    exact cmin_eq_left' hlohi

theorem merge_sel_smax (a b : Selection) :
    (a.merge_sel b).smax = cmax a.smax b.smax := by
  have hlohi : cle (cmin a.smin b.smin) (cmax a.smax b.smax) :=
    cle_trans (cmin_le_left _ _) (cle_trans (smin_le_smax a) (le_cmax_left _ _))
  unfold Selection.merge_sel
  split
  · show cmax (cmin a.smin b.smin) (cmax a.smax b.smax) = _
    exact cmax_eq_right hlohi
  · show cmax (cmax a.smax b.smax) (cmin a.smin b.smin) = _
    exact cmax_eq_right' hlohi

theorem mergeAdj_ne_nil (cur : Selection) (rest : List Selection) :
    mergeAdj cur rest ≠ [] := by
  induction rest generalizing cur with
  | nil => simp [mergeAdj]
  | cons s rest ih =>
    unfold mergeAdj
    split
    · exact ih _
    · simp

theorem mergeAdj_spec (cur : Selection) (rest : List Selection)
    (h : List.Pairwise minLe (cur :: rest)) :
    (∃ hd tl, mergeAdj cur rest = hd :: tl ∧ hd.smin = cur.smin) ∧
    (∀ x ∈ mergeAdj cur rest, cle cur.smin x.smin) ∧
    List.Pairwise minLe (mergeAdj cur rest) ∧
    List.Chain' sep (mergeAdj cur rest) := by
  induction rest generalizing cur with
  | nil =>
    refine ⟨⟨cur, [], rfl, rfl⟩, ?_, List.pairwise_singleton _ _,
      List.chain'_singleton _⟩
    intro x hx
    rw [mergeAdj, List.mem_singleton] at hx
    rw [hx]
    exact cle_refl _
  | cons s rest ih =>
    rw [List.pairwise_cons] at h
    obtain ⟨hcur, hrest⟩ := h
    unfold mergeAdj
    split
    · -- overlapping: merge cur and s, continue with the merged selection
      have hmin : (cur.merge_sel s).smin = cur.smin := by
        rw [merge_sel_smin]
        exact cmin_eq_left (hcur s (List.mem_cons_self _ _))
      have hpw : List.Pairwise minLe (cur.merge_sel s :: rest) := by
        rw [List.pairwise_cons]
        refine ⟨fun x hx => ?_, hrest.of_cons⟩
        show cle (cur.merge_sel s).smin x.smin
        rw [hmin]
        exact hcur x (List.mem_cons_of_mem _ hx)
      obtain ⟨⟨hd, tl, heq, hhd⟩, hlow, hpw', hch⟩ := ih _ hpw
      refine ⟨⟨hd, tl, heq, by rw [hhd, hmin]⟩, fun x hx => ?_, hpw', hch⟩
      have := hlow x hx
      rwa [hmin] at this
    · -- separated: emit cur, continue from s
      obtain ⟨⟨hd, tl, heq, hhd⟩, hlow, hpw', hch⟩ := ih _ hrest
      have hcs : cle cur.smin s.smin := hcur s (List.mem_cons_self _ _)
      refine ⟨⟨cur, mergeAdj s rest, rfl, rfl⟩, ?_, ?_, ?_⟩
      · intro x hx
        rw [List.mem_cons] at hx
        rcases hx with hx | hx
        · rw [hx]; exact cle_refl _
        · exact cle_trans hcs (hlow x hx)
      · rw [List.pairwise_cons]
        exact ⟨fun x hx => cle_trans hcs (hlow x hx), hpw'⟩
      · rw [heq, List.chain'_cons]
        constructor
        · show sep cur hd
          unfold sep
          rw [hhd]
          assumption
        · rw [← heq]; exact hch

theorem sort_and_merge_valid (sl : SelectionList) (h : sl.selections ≠ []) :
    check_invariant (sort_and_merge_overlapping sl) := by
  haveI : IsTotal Selection minLe := ⟨fun a b => cle_total a.smin b.smin⟩
  haveI : IsTrans Selection minLe := ⟨fun _ _ _ => cle_trans⟩
  haveI : IsTrans Selection sep :=
    ⟨fun a b c hab hbc h =>
      hbc (cle_trans (cle_trans h (cle_of_not_cle hab)) (smin_le_smax b))⟩
  unfold sort_and_merge_overlapping
  split
  · -- the sorted list cannot be empty
    rename_i heq
    have hperm := List.perm_insertionSort minLe sl.selections
    rw [heq] at hperm
    exact absurd hperm.symm.eq_nil h
  · rename_i c rest heq
    have hsorted : List.Pairwise minLe (c :: rest) := by
      have := List.sorted_insertionSort minLe sl.selections
      rwa [heq] at this
    obtain ⟨⟨hd, tl, hmeq, _⟩, _, hpw, hch⟩ := mergeAdj_spec c rest hsorted
    have hne : mergeAdj c rest ≠ [] := mergeAdj_ne_nil c rest
    have hlen : 0 < (mergeAdj c rest).length := List.length_pos.mpr hne
    refine ⟨hne, ?_, hpw, ?_⟩
    · exact Nat.lt_of_le_of_lt (Nat.min_le_right _ _) (Nat.sub_lt hlen Nat.one_pos)
    · exact ((List.chain'_iff_pairwise).mp hch).imp sep_not_overlapping

theorem apply_mode_ne_nil {β : Type} (mode : SelectMode)
    (func : β → Selection → Selection) (buffer : β) (sl : SelectionList)
    (h : sl.selections ≠ []) : (apply_mode mode func buffer sl).selections ≠ [] := by
  cases mode with
  | Append => simp [apply_mode]
  | Extend => simpa [apply_mode] using h
  | Replace => simpa [apply_mode] using h

theorem select_check_invariant {β : Type} (mode : SelectMode)
    (func : β → Selection → Selection) (buffer : β) (sl : SelectionList)
    (h : sl.selections ≠ []) : check_invariant (select mode func buffer sl) :=
  sort_and_merge_valid _ (apply_mode_ne_nil mode func buffer sl h)

/-- C1: for every sequence of transformation operations dispatched through
the select envelope (modes Replace, Extend, Append),
`sort_and_merge_overlapping` and invariant validation run after the
per-selection function has been applied (structurally, `select` is
`sort_and_merge_overlapping` composed after the per-mode body), and the
resulting `SelectionList` is non-empty, ascending-ordered by `min()`,
pairwise non-overlapping, and has a `main_index` denoting a valid index. -/
theorem C1_select_envelope_invariants {β : Type}
    (ops : List (SelectMode × (β → Selection → Selection))) (buffer : β)
    (sl : SelectionList) (h : check_invariant sl) :
    (∀ (mode : SelectMode) (func : β → Selection → Selection) (sl₀ : SelectionList),
        select mode func buffer sl₀ =
          sort_and_merge_overlapping (apply_mode mode func buffer sl₀)) ∧
    check_invariant (ops.foldl (fun acc op => select op.1 op.2 buffer acc) sl) := by
  refine ⟨fun _ _ _ => rfl, ?_⟩
  induction ops generalizing sl with
  | nil => exact h
  | cons op ops ih =>
    have hstep := select_check_invariant op.1 op.2 buffer sl h.1
    exact ih _ hstep

/-- Witness for C1 at a concrete one-selection list and a Replace then
Append operation sequence. -/
theorem C1_select_envelope_invariants_witness :
    check_invariant
      (([((SelectMode.Replace : SelectMode), fun (_ : Unit) s => s),
         ((SelectMode.Append : SelectMode), fun (_ : Unit) s => s)]).foldl
        (fun acc op => select op.1 op.2 () acc)
        ⟨[⟨(0, 0), (0, 1), []⟩], 0⟩) :=
  (C1_select_envelope_invariants _ () _ (by decide)).2

/-- C3 counterexample: with the replace paste variant (`R`,
`paste<InsertMode::Replace>`) and a register value ending in a line
terminator, the effective insert mode stays `Replace`: the insertion point
does not switch to a line-oriented placement, contrary to the claim that
every paste variant switches. -/
theorem C3_replace_paste_counterexample :
    ends_with_nl ['a', '\n'] = true ∧
    paste_effective_mode InsertMode.Replace [['a', '\n']] = InsertMode.Replace ∧
    adapt_for_linewise InsertMode.Replace = InsertMode.Replace := by decide

/-- C3 (amended): for every paste command and register value list, the
effective insert mode is computed once per command from the first value
ending in a line terminator: append becomes open-next-line and insert
becomes open-at-line-start, while the replace variant keeps mode `Replace`;
if no value ends with a line terminator the char-wise mode is kept. -/
theorem C3_paste_linewise_adaptation (mode : InsertMode)
    (strings : List (List Char)) :
    paste_effective_mode mode strings =
      (match strings.find? ends_with_nl with
       | some _ => adapt_for_linewise mode
       | none => mode) ∧
    adapt_for_linewise InsertMode.Append = InsertMode.InsertAtNextLineBegin ∧
    adapt_for_linewise InsertMode.Insert = InsertMode.InsertAtLineBegin ∧
    adapt_for_linewise InsertMode.Replace = InsertMode.Replace := by
  refine ⟨?_, rfl, rfl, rfl⟩
  induction strings with
  | nil => rfl
  | cons str rest ih =>
    by_cases h : ends_with_nl str = true
    · simp [paste_effective_mode, List.find?, h]
    · rw [Bool.not_eq_true] at h
      simp [paste_effective_mode, List.find?, h, ih]

/-- C2: for every selection set and filter predicate, `keep` (with a
non-empty regex) and `keep_pipe` (on Validate) fail with the dedicated
"no selections remaining" error exactly when the filtered set is empty,
never commit an empty set nor silently keep the prior one, and commit
exactly the filtered set when it is non-empty. -/
theorem C2_keep_never_empty {σ : Type} (rmatch : String → σ → Bool)
    (matching : Bool) (ex : String) (sels : List σ) (status : σ → Int)
    (hex : ex.isEmpty = false) :
    (∀ out, keep_on_regex rmatch matching ex sels = Except.ok out →
        out = sels.filter (fun sel => rmatch ex sel == matching) ∧ out ≠ []) ∧
    (sels.filter (fun sel => rmatch ex sel == matching) = [] →
        keep_on_regex rmatch matching ex sels =
          Except.error "no selections remaining") ∧
    (∀ out, keep_pipe_on_event status PromptEvent.Validate sels = Except.ok out →
        out = sels.filter (fun sel => status sel == 0) ∧ out ≠ []) ∧
    (sels.filter (fun sel => status sel == 0) = [] →
        keep_pipe_on_event status PromptEvent.Validate sels =
          Except.error "no selections remaining") ∧
    (sels.filter (fun sel => rmatch ex sel == matching) ≠ [] →
        keep_on_regex rmatch matching ex sels =
          Except.ok (sels.filter (fun sel => rmatch ex sel == matching))) ∧
    (sels.filter (fun sel => status sel == 0) ≠ [] →
        keep_pipe_on_event status PromptEvent.Validate sels =
          Except.ok (sels.filter (fun sel => status sel == 0))) := by
  refine ⟨?_, ?_, ?_, ?_, ?_, ?_⟩
  · intro out hout
    rw [keep_on_regex, if_neg (by simp [hex])] at hout
    by_cases hk : (sels.filter (fun sel => rmatch ex sel == matching)).isEmpty = true
    · rw [if_pos hk] at hout
      exact Except.noConfusion hout
    · rw [if_neg (by simp [hk])] at hout
      cases hout
      exact ⟨rfl, by simpa [List.isEmpty_iff] using hk⟩
  · intro hk
    rw [keep_on_regex, if_neg (by simp [hex])]
    simp [hk]
  · intro out hout
    rw [keep_pipe_on_event, if_neg (by simp)] at hout
    by_cases hk : (sels.filter (fun sel => status sel == 0)).isEmpty = true
    · rw [if_pos hk] at hout
      exact Except.noConfusion hout
    · rw [if_neg (by simp [hk])] at hout
      cases hout
      exact ⟨rfl, by simpa [List.isEmpty_iff] using hk⟩
  · intro hk
    rw [keep_pipe_on_event, if_neg (by simp)]
    simp [hk]
  · intro hk
    rw [keep_on_regex, if_neg (by simp [hex])]
    rw [if_neg (by simpa [List.isEmpty_iff] using hk)]
  · intro hk
    rw [keep_pipe_on_event, if_neg (by simp)]
    rw [if_neg (by simpa [List.isEmpty_iff] using hk)]

/-- Witness for C2: filtering a one-selection set with an always-false
predicate raises the dedicated error. -/
theorem C2_keep_never_empty_witness :
    keep_on_regex (fun _ (_ : Nat) => false) true "x" [0] =
      Except.error "no selections remaining" :=
  (C2_keep_never_empty (fun _ (_ : Nat) => false) true "x" [0] (fun _ => 0)
    (by decide)).2.1 (by decide)

/-- C9 counterexample: `keep` with an empty submitted pattern is a plain
no-op — it does not reuse the "/" register.  With register content "x" and
one selection not matching "x", the source's `keep` keeps the prior set
silently while the claimed register fallback would raise
"no selections remaining". -/
theorem C9_keep_no_fallback_counterexample :
    keep_on_regex (fun _ (_ : Nat) => false) true "" [0] = Except.ok [0] ∧
    keep_claimed_fallback (fun _ (_ : Nat) => false) true "x" "" [0] =
      Except.error "no selections remaining" ∧
    keep_on_regex (fun _ (_ : Nat) => false) true "" [0] ≠
      keep_claimed_fallback (fun _ (_ : Nat) => false) true "x" "" [0] := by
  refine ⟨rfl, rfl, ?_⟩
  intro h
  rw [show keep_on_regex (fun _ (_ : Nat) => false) true "" [0] =
        Except.ok [0] from rfl,
      show keep_claimed_fallback (fun _ (_ : Nat) => false) true "x" "" [0] =
        Except.error "no selections remaining" from rfl] at h
  exact Except.noConfusion h

/-- C9 (amended): for `search`, `select_regex` and `split_regex`, an empty
submitted pattern reuses the "/" register in its place (and if the pattern is
still empty after the fallback, no selection change is applied), and on a
Validate event of a non-empty pattern that pattern is recorded into the "/"
register; `keep` instead treats an empty pattern as a no-op, without
consulting the register. -/
theorem C9_empty_pattern_register_fallback {σ : Type}
    (rmatch : String → σ → Bool) (matching : Bool) (sels : List σ)
    (regSlash ex : String) (event : PromptEvent) :
    (ex.isEmpty = true →
      ∀ cb ∈ [search_callback, select_regex_callback, split_regex_callback],
        cb regSlash ex event =
          (regSlash, if regSlash.isEmpty then none else some regSlash)) ∧
    (ex.isEmpty = false → event = PromptEvent.Validate →
      ∀ cb ∈ [search_callback, select_regex_callback, split_regex_callback],
        cb regSlash ex event = (ex, some ex)) ∧
    (ex.isEmpty = true →
      keep_on_regex rmatch matching ex sels = Except.ok sels) := by
  refine ⟨?_, ?_, ?_⟩
  · intro hex cb hcb
    simp only [List.mem_cons, List.not_mem_nil, or_false] at hcb
    rcases hcb with h | h | h <;> subst h <;>
      simp [search_callback, select_regex_callback, split_regex_callback, hex]
  · intro hex hev cb hcb
    simp only [List.mem_cons, List.not_mem_nil, or_false] at hcb
    rcases hcb with h | h | h <;> subst h <;>
      simp [search_callback, select_regex_callback, split_regex_callback,
            hex, hev]
  · intro hex
    rw [keep_on_regex, if_pos hex]

/-- Witness for C9 (amended): with register content "ab" and an empty
submitted pattern, the search callback applies the register pattern. -/
theorem C9_empty_pattern_register_fallback_witness :
    search_callback "ab" "" PromptEvent.Change = ("ab", some "ab") :=
  ((C9_empty_pattern_register_fallback (fun _ (_ : Nat) => false) true []
      "ab" "" PromptEvent.Change).1 (by decide) search_callback
      (by simp)).trans (by decide)

theorem regex_prompt_step_snapshot {σ : Type} (incsearch : Bool)
    (compile : String → Option String)
    (func : String → PromptEvent → σ → Except (FuncErr × σ) σ)
    (upd : σ → σ) (snapshot : σ) (str : String) (event : PromptEvent) :
    (regex_prompt_step incsearch compile func upd snapshot str event).2 =
      upd snapshot := by
  unfold regex_prompt_step
  dsimp only
  split
  · rfl
  split
  · rfl
  · rfl

theorem regex_prompt_run_funcInput {σ : Type}
    (compile : String → Option String)
    (f g : String → PromptEvent → σ → Except (FuncErr × σ) σ)
    (str : String) (event : PromptEvent) (snap : σ) :
    (regex_prompt_run compile f str event snap).funcInput =
      (regex_prompt_run compile g str event snap).funcInput := by
  unfold regex_prompt_run
  rcases hc : (if str.isEmpty = true then none else compile str) with _ | m
  · dsimp only
    have hside : ∀ (fn : String → PromptEvent → σ → Except (FuncErr × σ) σ),
        (match fn str event snap with
          | Except.ok sels2 =>
              (⟨sels2, none, false, some snap⟩ : PromptStep σ)
          | Except.error (FuncErr.regexErr m, sels2) =>
            if event = PromptEvent.Validate then
              ⟨sels2, some ("regex error: " ++ m), false, some snap⟩
            else ⟨sels2, none, true, some snap⟩
          | Except.error (FuncErr.stdErr m, sels2) =>
            if event = PromptEvent.Validate then
              ⟨sels2, some ("regex error: " ++ m), false, some snap⟩
            else ⟨sels2, none, true, some snap⟩
          | Except.error (FuncErr.kakErr m, _) =>
            if event = PromptEvent.Validate then ⟨snap, some m, false, some snap⟩
            else ⟨snap, none, false, some snap⟩).funcInput = some snap := by
      intro fn
      rcases fn str event snap with ⟨e, s⟩ | s
      · rcases e with m | m | m <;> dsimp only <;> split <;> rfl
      · rfl
    rw [hside f, hside g]
  · rfl

theorem regex_prompt_step_funcInput {σ : Type} (incsearch : Bool)
    (compile : String → Option String)
    (f g : String → PromptEvent → σ → Except (FuncErr × σ) σ)
    (upd : σ → σ) (snapshot : σ) (str : String) (event : PromptEvent) :
    (regex_prompt_step incsearch compile f upd snapshot str event).1.funcInput =
      (regex_prompt_step incsearch compile g upd snapshot str event).1.funcInput := by
  unfold regex_prompt_step
  dsimp only
  split
  · rfl
  split
  · rfl
  · exact regex_prompt_run_funcInput compile f g str event (upd snapshot)

theorem regex_prompt_run_no_throw {σ : Type} (compile : String → Option String)
    (func : String → PromptEvent → σ → Except (FuncErr × σ) σ)
    (str : String) (event : PromptEvent) (snap : σ)
    (h : event ≠ PromptEvent.Validate) :
    (regex_prompt_run compile func str event snap).thrown = none := by
  unfold regex_prompt_run
  rcases hc : (if str.isEmpty = true then none else compile str) with _ | m
  · dsimp only
    rcases func str event snap with ⟨e, s⟩ | s
    · rcases e with m | m | m <;> dsimp only <;> rw [if_neg h]
    · rfl
  · dsimp only
    rw [if_neg h]

/-- C4: a regex compile or runtime error raised while the event is an
incremental Change is suppressed — no exception reaches the caller, the
error surfaces only as the error prompt face — whereas the same error on a
Validate (commit) event is escalated to the caller as a hard error. -/
theorem C4_regex_error_asymmetry {σ : Type} (incsearch : Bool)
    (compile : String → Option String)
    (func : String → PromptEvent → σ → Except (FuncErr × σ) σ)
    (upd : σ → σ) (snapshot : σ) (str : String) :
    ((regex_prompt_step incsearch compile func upd snapshot str
        PromptEvent.Change).1.thrown = none) ∧
    (str.isEmpty = false → ∀ m, compile str = some m →
      (regex_prompt_step incsearch compile func upd snapshot str
        PromptEvent.Validate).1.thrown = some "regex error") ∧
    ((if str.isEmpty then none else compile str) = none →
      ∀ e s2, func str PromptEvent.Validate (upd snapshot) = Except.error (e, s2) →
      (regex_prompt_step incsearch compile func upd snapshot str
        PromptEvent.Validate).1.thrown.isSome = true) ∧
    (str.isEmpty = false → incsearch = true → ∀ m, compile str = some m →
      (regex_prompt_step incsearch compile func upd snapshot str
        PromptEvent.Change).1.faceError = true) ∧
    ((if str.isEmpty then none else compile str) = none →
      str.isEmpty = false → incsearch = true →
      ∀ m s2,
        (func str PromptEvent.Change (upd snapshot) =
            Except.error (FuncErr.regexErr m, s2) ∨
         func str PromptEvent.Change (upd snapshot) =
            Except.error (FuncErr.stdErr m, s2)) →
      (regex_prompt_step incsearch compile func upd snapshot str
        PromptEvent.Change).1.faceError = true) := by
  have hCA : ¬ (PromptEvent.Change = PromptEvent.Abort) := by decide
  have hVA : ¬ (PromptEvent.Validate = PromptEvent.Abort) := by decide
  have hVC : ¬ (PromptEvent.Validate = PromptEvent.Change ∧
      (str.isEmpty = true ∨ incsearch = false)) :=
    fun h => PromptEvent.noConfusion h.1
  refine ⟨?_, ?_, ?_, ?_, ?_⟩
  · unfold regex_prompt_step
    dsimp only
    rw [if_neg hCA]
    by_cases h2 : PromptEvent.Change = PromptEvent.Change ∧
        (str.isEmpty = true ∨ incsearch = false)
    · rw [if_pos h2]
    · rw [if_neg h2]
      exact regex_prompt_run_no_throw compile func str PromptEvent.Change _
        (by intro h; exact PromptEvent.noConfusion h)
  · intro hstr m hm
    unfold regex_prompt_step
    dsimp only
    rw [if_neg hVA, if_neg hVC]
    unfold regex_prompt_run
    rw [if_neg (by simp [hstr]), hm]
    dsimp only
    rw [if_pos rfl]
  · intro hc e s2 hfunc
    unfold regex_prompt_step
    dsimp only
    rw [if_neg hVA, if_neg hVC]
    unfold regex_prompt_run
    rw [hc]
    dsimp only
    rw [hfunc]
    rcases e with m | m | m <;> dsimp only <;> rw [if_pos rfl] <;> rfl
  · intro hstr hinc m hm
    unfold regex_prompt_step
    dsimp only
    rw [if_neg hCA]
    rw [if_neg (by simp [hstr, hinc])]
    unfold regex_prompt_run
    rw [if_neg (by simp [hstr]), hm]
    dsimp only
    rw [if_neg (by intro h; exact PromptEvent.noConfusion h)]
  · intro hc hstr hinc m s2 hfunc
    unfold regex_prompt_step
    dsimp only
    rw [if_neg hCA]
    rw [if_neg (by simp [hstr, hinc])]
    unfold regex_prompt_run
    rw [hc]
    dsimp only
    rcases hfunc with hfunc | hfunc <;> rw [hfunc] <;> dsimp only <;>
      rw [if_neg (by intro h; exact PromptEvent.noConfusion h)]

/-- Witness for C4: with a pattern whose compilation fails, the Change event
swallows the error while the Validate event escalates it. -/
theorem C4_regex_error_asymmetry_witness :
    (regex_prompt_step true (fun _ => some "bad") (fun _ _ s => Except.ok s)
        id (0 : Nat) "(" PromptEvent.Change).1.thrown = none ∧
    (regex_prompt_step true (fun _ => some "bad") (fun _ _ s => Except.ok s)
        id (0 : Nat) "(" PromptEvent.Validate).1.thrown = some "regex error" :=
  ⟨(C4_regex_error_asymmetry true (fun _ => some "bad") (fun _ _ s => Except.ok s)
      id 0 "(").1,
   (C4_regex_error_asymmetry true (fun _ => some "bad") (fun _ _ s => Except.ok s)
      id 0 "(").2.1 (by decide) "bad" rfl⟩

theorem session_snapshot {σ : Type} (incsearch : Bool)
    (compile : String → Option String)
    (func : String → PromptEvent → σ → Except (FuncErr × σ) σ)
    (events : List ((σ → σ) × String × PromptEvent)) (snapshot ctx : σ) :
    (regex_prompt_session incsearch compile func snapshot ctx events).1 =
      events.foldl (fun s e => e.1 s) snapshot := by
  induction events generalizing snapshot ctx with
  | nil => rfl
  | cons ev rest ih =>
    rcases ev with ⟨upd, str, e⟩
    show (regex_prompt_session incsearch compile func
        (regex_prompt_step incsearch compile func upd snapshot str e).2 _ rest).1 = _
    rw [regex_prompt_step_snapshot, ih]
    rfl

theorem session_inputs_funcfree {σ : Type} (incsearch : Bool)
    (compile : String → Option String)
    (f g : String → PromptEvent → σ → Except (FuncErr × σ) σ)
    (events : List ((σ → σ) × String × PromptEvent)) (snapshot c1 c2 : σ) :
    (regex_prompt_session incsearch compile f snapshot c1 events).2.2 =
      (regex_prompt_session incsearch compile g snapshot c2 events).2.2 := by
  induction events generalizing snapshot c1 c2 with
  | nil => rfl
  | cons ev rest ih =>
    rcases ev with ⟨upd, str, e⟩
    show (regex_prompt_step incsearch compile f upd snapshot str e).1.funcInput ::
        (regex_prompt_session incsearch compile f
          (regex_prompt_step incsearch compile f upd snapshot str e).2 _ rest).2.2 = _
    rw [regex_prompt_step_funcInput incsearch compile f g,
        regex_prompt_step_snapshot]
    show _ = (regex_prompt_step incsearch compile g upd snapshot str e).1.funcInput ::
        (regex_prompt_session incsearch compile g
          (regex_prompt_step incsearch compile g upd snapshot str e).2 _ rest).2.2
    rw [regex_prompt_step_snapshot]
    rw [ih]

theorem session_abort_restores {σ : Type} (incsearch : Bool)
    (compile : String → Option String)
    (func : String → PromptEvent → σ → Except (FuncErr × σ) σ)
    (events : List ((σ → σ) × String × PromptEvent)) (snapshot ctx : σ)
    (upd : σ → σ) (str : String) :
    (regex_prompt_session incsearch compile func snapshot ctx
        (events ++ [(upd, str, PromptEvent.Abort)])).2.1 =
      (events ++ [(upd, str, PromptEvent.Abort)]).foldl
        (fun s e => e.1 s) snapshot := by
  induction events generalizing snapshot ctx with
  | nil =>
    show (regex_prompt_session incsearch compile func
        (regex_prompt_step incsearch compile func upd snapshot str
          PromptEvent.Abort).2
        (regex_prompt_step incsearch compile func upd snapshot str
          PromptEvent.Abort).1.sels []).2.1 = _
    have habort : (regex_prompt_step incsearch compile func upd snapshot str
        PromptEvent.Abort).1.sels = upd snapshot := by
      unfold regex_prompt_step
      rw [if_pos rfl]
    rw [regex_prompt_session]
    dsimp only
    rw [habort]
    rfl
  | cons ev rest ih =>
    rcases ev with ⟨upd2, str2, e2⟩
    show (regex_prompt_session incsearch compile func
        (regex_prompt_step incsearch compile func upd2 snapshot str2 e2).2 _
        (rest ++ [(upd, str, PromptEvent.Abort)])).2.1 = _
    rw [regex_prompt_step_snapshot, ih]
    rfl

/-- C5: the selection snapshot captured before the prompt opened is restored
(forwarded through buffer edits by `update()`) at the start of handling every
prompt event: the captured snapshot evolves by the update functions alone;
the per-event selections handed to `func` are independent of `func` itself
and of the context (so every Change re-evaluation starts from the original
snapshot, never from the previous preview result); and after an Abort event
the selection set equals exactly the forwarded pre-prompt snapshot. -/
theorem C5_prompt_snapshot_restoration {σ : Type} (incsearch : Bool)
    (compile : String → Option String)
    (f g : String → PromptEvent → σ → Except (FuncErr × σ) σ)
    (snapshot c1 c2 : σ)
    (events : List ((σ → σ) × String × PromptEvent))
    (upd : σ → σ) (str : String) :
    (regex_prompt_session incsearch compile f snapshot c1 events).1 =
      events.foldl (fun s e => e.1 s) snapshot ∧
    (regex_prompt_session incsearch compile f snapshot c1 events).2.2 =
      (regex_prompt_session incsearch compile g snapshot c2 events).2.2 ∧
    (regex_prompt_session incsearch compile f snapshot c1
        (events ++ [(upd, str, PromptEvent.Abort)])).2.1 =
      (events ++ [(upd, str, PromptEvent.Abort)]).foldl
        (fun s e => e.1 s) snapshot :=
  ⟨session_snapshot incsearch compile f events snapshot c1,
   session_inputs_funcfree incsearch compile f g events snapshot c1 c2,
   session_abort_restores incsearch compile f events snapshot c1 upd str⟩

theorem run_macro_body_flags
    (step : MacroFlags → Fin 26 → Except String Unit × MacroFlags)
    (hstep : ∀ fl n, (step fl n).2 = fl) :
    ∀ items flags, (run_macro_body step flags items).2 = flags := by
  intro items
  induction items with
  | nil => intro flags; rfl
  | cons it rest ih =>
    intro flags
    cases it with
    | act ok =>
      cases ok
      · rfl
      · simpa only [run_macro_body, if_true] using ih flags
    | call n =>
      simp only [run_macro_body]
      rcases hs : step flags n with ⟨r, flags2⟩
      have hflags : flags2 = flags := by
        have := hstep flags n
        rwa [hs] at this
      cases r with
      | error e => exact hflags
      | ok u =>
        show (run_macro_body step flags2 rest).2 = flags
        rw [ih flags2, hflags]

theorem replay_macro_flags (defs : MacroDefs) :
    ∀ fuel flags name, ( replay_macro defs fuel flags name).2 = flags := by
  intro fuel
  induction fuel with
  | zero => intro flags name; rfl
  | succ n ih =>
    intro flags name
    by_cases hguard : flags name = true
    · simp only [ replay_macro, if_pos hguard]
    · by_cases hempty : (defs name).isEmpty = true
      · simp only [ replay_macro, if_neg hguard, if_pos hempty]
      · simp only [ replay_macro, if_neg hguard, if_neg hempty]
        rw [run_macro_body_flags _ (fun fl m => ih fl m)]
        funext i
        unfold MacroFlags.set
        by_cases hi : i = name
        · subst hi
          simp only [if_pos rfl]
          have hfalse : flags i = false := by
            cases h : flags i
            · rfl
            · exact absurd h hguard
          exact hfalse.symm
        · rw [if_neg hi, if_neg hi]

/-- C6: replaying a macro whose guard flag is already set raises the
recursive-macro-call error; the guard flags are restored on every exit path
(normal or error); a transitively self-invoking macro register fails with
the recursion error, and a subsequent independent replay of the same macro
name (after re-recording it without the recursion) succeeds, the guard
state having been cleared. -/
theorem C6_macro_recursion_guard (defs : MacroDefs) (fuel : Nat)
    (flags : MacroFlags) (name : Fin 26) :
    (( replay_macro defs fuel flags name).2 = flags) ∧
    (flags name = true →
      ( replay_macro defs (fuel + 1) flags name).1 =
        Except.error "recursive macros call detected") ∧
    (( replay_macro macro_defs_rec 5 macro_flags_clear 0).1 =
        Except.error "recursive macros call detected") ∧
    (( replay_macro macro_defs_rec 5 macro_flags_clear 0).2 0 = false) ∧
    (( replay_macro macro_defs_fixed 5
        ( replay_macro macro_defs_rec 5 macro_flags_clear 0).2 0).1 =
      Except.ok ()) := by
  refine ⟨replay_macro_flags defs fuel flags name, ?_, rfl, rfl, rfl⟩
  intro h
  simp only [ replay_macro, if_pos h]

/-- Witness for C6 at a concrete flag state with the guard set for macro
`a`. -/
theorem C6_macro_recursion_guard_witness :
    ( replay_macro macro_defs_rec (4 + 1) (macro_flags_clear.set 0 true) 0).1 =
      Except.error "recursive macros call detected" :=
  (C6_macro_recursion_guard macro_defs_rec 4
    (macro_flags_clear.set 0 true) 0).2.1 rfl

/-- C7: when the buffer reports a change was available, the selection set is
replaced with exactly the modified ranges when any exist (otherwise kept),
and `avoid_eol()` runs after either operation; when no change was available,
the "nothing left to undo"/"nothing left to redo" status is reported and the
selection set is left untouched. -/
theorem C7_undo_redo_selection_mapping {β σ : Type}
    (undo_op redo_op : β → Bool × β) (timestamp : β → Nat)
    (cmr : β → Nat → List σ) (ae : List σ → List σ)
    (buffer : β) (sels : List σ) :
    ((undo_op buffer).1 = true →
      undo_cmd undo_op timestamp cmr ae buffer sels =
        ((undo_op buffer).2,
         ae (if (cmr (undo_op buffer).2 (timestamp buffer)).isEmpty then sels
             else cmr (undo_op buffer).2 (timestamp buffer)),
         none)) ∧
    ((undo_op buffer).1 = false →
      undo_cmd undo_op timestamp cmr ae buffer sels =
        ((undo_op buffer).2, sels, some "nothing left to undo")) ∧
    ((redo_op buffer).1 = true →
      redo_cmd redo_op timestamp cmr ae buffer sels =
        ((redo_op buffer).2,
         ae (if (cmr (redo_op buffer).2 (timestamp buffer)).isEmpty then sels
             else cmr (redo_op buffer).2 (timestamp buffer)),
         none)) ∧
    ((redo_op buffer).1 = false →
      redo_cmd redo_op timestamp cmr ae buffer sels =
        ((redo_op buffer).2, sels, some "nothing left to redo")) := by
  refine ⟨?_, ?_, ?_, ?_⟩
  · intro h
    unfold undo_cmd
    rw [if_pos h]
  · intro h
    unfold undo_cmd
    rw [if_neg (by rw [h]; exact Bool.false_ne_true)]
  · intro h
    unfold redo_cmd
    rw [if_pos h]
  · intro h
    unfold redo_cmd
    rw [if_neg (by rw [h]; exact Bool.false_ne_true)]

/-- Witness for C7: a buffer with nothing to undo reports the status and
leaves the one-element selection set untouched. -/
theorem C7_undo_redo_selection_mapping_witness :
    undo_cmd (fun (b : Nat) => (false, b)) (fun _ => 0)
      (fun _ _ => ([] : List Nat)) id 7 [5] = (7, [5], some "nothing left to undo") :=
  (C7_undo_redo_selection_mapping (fun (b : Nat) => (false, b))
    (fun b => (false, b)) (fun _ => 0) (fun _ _ => ([] : List Nat)) id 7 [5]).2.1 rfl

/-- C8: provided every stored word carries the bitmask computed from it, and
a word can only match a query whose letter bitset is a subset of the word's,
`find_matching` returns exactly the stored words accepted by the match
predicate: the bitset pre-filter admits no false negatives, and words it
passes that the predicate rejects are excluded. -/
theorem C8_word_db_bitset_no_false_negatives (ul : String → Nat)
    (words : List (String × Nat)) (mtch : String → String → Bool) (str : String)
    (hdb : ∀ w ∈ words, w.2 = ul w.1)
    (hsub : ∀ w, mtch w str = true → Nat.land (ul str) (ul w) = ul str) :
    find_matching ul words mtch str =
      (words.map (fun w => w.1)).filter (fun w => mtch w str) ∧
    (∀ w ∈ words, mtch w.1 str = true →
      w.1 ∈ find_matching ul words mtch str) ∧
    (∀ w, w ∈ find_matching ul words mtch str → mtch w str = true) := by
  have main : find_matching ul words mtch str =
      (words.map (fun w => w.1)).filter (fun w => mtch w str) := by
    unfold find_matching
    induction words with
    | nil => rfl
    | cons w ws ih =>
      have hw : w.2 = ul w.1 := hdb w (List.mem_cons_self _ _)
      have hws : ∀ x ∈ ws, x.2 = ul x.1 :=
        fun x hx => hdb x (List.mem_cons_of_mem _ hx)
      have hcond : ((Nat.land (ul str) w.2 == ul str) && mtch w.1 str) =
          mtch w.1 str := by
        rw [hw]
        cases hm : mtch w.1 str
        · rw [Bool.and_false]
        · rw [Bool.and_true, hsub w.1 hm, beq_self_eq_true]
      rw [List.filter_cons, hcond, List.map_cons, List.filter_cons]
      cases hm : mtch w.1 str
      · simp only [Bool.false_eq_true, if_false]
        exact ih hws
      · simp only [if_true, List.map_cons]
        rw [ih hws]
  refine ⟨main, ?_, ?_⟩
  · intro w hw hm
    rw [main, List.mem_filter]
    exact ⟨List.mem_map_of_mem _ hw, hm⟩
  · intro w hw
    rw [main, List.mem_filter] at hw
    exact hw.2

/-- Witness for C8: a two-word database queried with a predicate accepting
exactly one of the words. -/
theorem C8_word_db_bitset_no_false_negatives_witness :
    find_matching (fun s => if s = "ab" then 3 else if s = "b" then 2 else 0)
      [("ab", 3), ("b", 2)] (fun w _ => decide (w = "ab")) "ab" = ["ab"] := by
  have h := C8_word_db_bitset_no_false_negatives
    (fun s => if s = "ab" then 3 else if s = "b" then 2 else 0)
    [("ab", 3), ("b", 2)] (fun w _ => decide (w = "ab")) "ab"
    (by intro w hw; fin_cases hw <;> rfl)
    (by
      intro w hm
      have hw : w = "ab" := of_decide_eq_true hm
      rw [hw]
      rfl)
  rw [h.1]
  rfl

/-- C10: `search_next` with an empty "/" register raises the recoverable
"no search pattern" error leaving the selections unchanged; with a register
pattern that fails to compile it raises a recoverable "regex error"; and
with a compiling pattern it applies the next-match selection once per unit
of the effective numeric count (`max count 1`, the do-while loop running
once when no count is given). -/
theorem C10_search_next_errors {σ : Type} (regSlash : String)
    (compile : String → Option String) (apply_match : σ → σ)
    (count : Nat) (sels : σ) :
    (regSlash.isEmpty = true →
      search_next regSlash compile apply_match count sels =
        (sels, some "no search pattern")) ∧
    (regSlash.isEmpty = false → ∀ e, compile regSlash = some e →
      search_next regSlash compile apply_match count sels =
        (sels, some ("regex error: " ++ e))) ∧
    (regSlash.isEmpty = false → compile regSlash = none →
      search_next regSlash compile apply_match count sels =
        (Nat.iterate apply_match (max count 1) sels, none) ∧
      (1 ≤ count →
        search_next regSlash compile apply_match count sels =
          (Nat.iterate apply_match count sels, none))) := by
  refine ⟨?_, ?_, ?_⟩
  · intro h
    unfold search_next
    rw [if_pos h]
  · intro h e he
    unfold search_next
    rw [if_neg (by rw [h]; exact Bool.false_ne_true), he]
  · intro h hc
    unfold search_next
    rw [if_neg (by rw [h]; exact Bool.false_ne_true), hc]
    refine ⟨rfl, fun h1 => ?_⟩
    rw [Nat.max_eq_left h1]

/-- Witness for C10: repeating the last search with an empty "/" register
fails with "no search pattern" and keeps the selections. -/
theorem C10_search_next_errors_witness :
    search_next "" (fun _ => none) (fun (n : Nat) => n + 1) 0 5 =
      (5, some "no search pattern") :=
  (C10_search_next_errors "" (fun _ => none) (fun (n : Nat) => n + 1) 0 5).1 rfl

end KakSpec

